import Mathlib

/-!
Verification of the serde-pod binary codec (`src/ser.rs`, `src/de.rs`,
`src/error.rs`, `src/lib.rs`) against its natural-language specification.

The development shallowly embeds the two traversal engines:

* serialization (`ser.rs`): the serde data model is embedded as the inductive
  `Value`; the `Serializer` trait implementation becomes `serValue`, generic
  over an abstract byte sink exactly as the Rust code is generic over
  `W: Write`.  `to_writer` and `to_vec` mirror the public entry points.
* deserialization (`de.rs`): the requested serde shape is embedded as the
  inductive `Ty`; the `Deserializer` trait implementation becomes
  `deserialize`.  The byte source (`R: BufRead`, instantiated at `&[u8]` by
  `from_bytes`) is threaded as an explicit `List Nat` of remaining bytes.
  Outcomes model Rust faithfully: `Except Failure`, where a `Failure` is a
  returned `Error` (the repository's error enum), a panic, or divergence of
  the unknown-length sequence loop.

Machine integers are `Nat`/`Int` with explicit `% 256^w` / two's-complement
conversions; `f32`/`f64` are carried as raw bit patterns, which is exactly
what `byteorder`'s `write_f32`/`read_f32` move across the wire.
-/

namespace SerdePod

/-- Byte-order policy: the two `byteorder::ByteOrder` instantiations the
crate exposes (`BE`, `LE` in `lib.rs`). -/
inductive ByteOrder where
  | BE
  | LE
deriving DecidableEq

/-- The error enum of `src/error.rs`.  `Io` carries the `io::Error` message,
`Encoding` stands for a `str::Utf8Error` (its `valid_up_to` payload is not
inspected anywhere in the crate), `Unknown` is the `serde` custom-error
carrier, and `Unsupported` carries the static operation name. -/
inductive Error where
  | Io (msg : String)
  | Encoding
  | Unknown (msg : String)
  | Unsupported (msg : String)
deriving DecidableEq

/-- Outcome of running a fallible Rust function: it returns `Err(e)`,
panics, or loops forever.  The deserializer's unknown-length sequence loop
is the one place the crate can diverge, and `read_char` is the one place it
can panic (a `buf[1..0]` slice); both are modelled explicitly. -/
inductive Failure where
  | err (e : Error)
  | panicked (msg : String)
  | diverged
deriving DecidableEq

/-! ## Byte-level numeric conversions (the `byteorder` crate) -/

/-- Little-endian bytes of `n`, exactly `w` bytes (least significant
first); each byte is reduced mod 256, as the machine integer is. -/
def natToBytesLE : Nat → Nat → List Nat
  | 0, _ => []
  | w + 1, n => n % 256 :: natToBytesLE w (n / 256)

/-- Value of a little-endian byte string. -/
def leToNat : List Nat → Nat
  | [] => 0
  | b :: bs => b + 256 * leToNat bs

/-- Bytes of the `w`-byte machine integer `n` under byte order `bo`
(`BO::write_uXX`). -/
def putNum (bo : ByteOrder) (w n : Nat) : List Nat :=
  match bo with
  | .LE => natToBytesLE w n
  | .BE => (natToBytesLE w n).reverse

/-- Machine integer carried by a byte string under byte order `bo`
(`BO::read_uXX`). -/
def bytesToNum (bo : ByteOrder) (bs : List Nat) : Nat :=
  match bo with
  | .LE => leToNat bs
  | .BE => leToNat bs.reverse

/-- Two's-complement bit pattern of the signed integer `i` in a `w`-byte
word: `i as uXX`. -/
def twosToNat (w : Nat) (i : Int) : Nat :=
  (i % ((256 ^ w : Nat) : Int)).toNat

/-- Signed reading of a `w`-byte bit pattern: `n as iXX`. -/
def natToTwos (w : Nat) (n : Nat) : Int :=
  if n < 256 ^ w / 2 then (n : Int) else (n : Int) - (256 ^ w : Nat)

/-! ## UTF-8 (`char::encode_utf8`, `str::from_utf8`) -/

/-- The UTF-8 bytes of the Unicode scalar value `u` (1 to 4 bytes),
as produced by `char::encode_utf8`. -/
def utf8EncodeScalar (u : Nat) : List Nat :=
  if u < 0x80 then [u]
  else if u < 0x800 then [0xC0 + u / 64, 0x80 + u % 64]
  else if u < 0x10000 then [0xE0 + u / 4096, 0x80 + u / 64 % 64, 0x80 + u % 64]
  else [0xF0 + u / 262144, 0x80 + u / 4096 % 64, 0x80 + u / 64 % 64, 0x80 + u % 64]

/-- UTF-8 bytes of a character. -/
def utf8EncodeChar (c : Char) : List Nat :=
  utf8EncodeScalar c.toNat

/-- The leading-byte width table copied verbatim in
`Deserializer::read_char` from `core::str::utf8_char_width`. -/
def UTF8_CHAR_WIDTH : List Nat :=
  [1,1,1,1,1,1,1,1,1,1,1,1,1,1,1,1,
   1,1,1,1,1,1,1,1,1,1,1,1,1,1,1,1,
   1,1,1,1,1,1,1,1,1,1,1,1,1,1,1,1,
   1,1,1,1,1,1,1,1,1,1,1,1,1,1,1,1,
   1,1,1,1,1,1,1,1,1,1,1,1,1,1,1,1,
   1,1,1,1,1,1,1,1,1,1,1,1,1,1,1,1,
   1,1,1,1,1,1,1,1,1,1,1,1,1,1,1,1,
   1,1,1,1,1,1,1,1,1,1,1,1,1,1,1,1,
   0,0,0,0,0,0,0,0,0,0,0,0,0,0,0,0,
   0,0,0,0,0,0,0,0,0,0,0,0,0,0,0,0,
   0,0,0,0,0,0,0,0,0,0,0,0,0,0,0,0,
   0,0,0,0,0,0,0,0,0,0,0,0,0,0,0,0,
   0,0,2,2,2,2,2,2,2,2,2,2,2,2,2,2,
   2,2,2,2,2,2,2,2,2,2,2,2,2,2,2,2,
   3,3,3,3,3,3,3,3,3,3,3,3,3,3,3,3,
   4,4,4,4,4,0,0,0,0,0,0,0,0,0,0,0]

/-- Is `b` a UTF-8 continuation byte (`0x80..=0xBF`)? -/
def utf8Cont (b : Nat) : Bool :=
  0x80 ≤ b && b < 0xC0

/-- Decode the first UTF-8 character of a byte string: its Unicode scalar
value and the number of bytes it occupies.  `none` on malformed input.
The overlong/surrogate/out-of-range exclusions are expressed as scalar-value
range checks, which for each leading byte are equivalent to the per-byte
ranges enforced by `core::str::run_utf8_validation`. -/
def utf8DecodeChar : List Nat → Option (Nat × Nat)
  | [] => none
  | b0 :: rest =>
    if b0 < 0x80 then some (b0, 1)
    else if b0 < 0xC2 then none
    else if b0 < 0xE0 then
      match rest with
      | b1 :: _ => if utf8Cont b1 then some ((b0 - 0xC0) * 64 + (b1 - 0x80), 2) else none
      | [] => none
    else if b0 < 0xF0 then
      match rest with
      | b1 :: b2 :: _ =>
        if utf8Cont b1 && utf8Cont b2 then
          let u := (b0 - 0xE0) * 4096 + (b1 - 0x80) * 64 + (b2 - 0x80)
          if 0x800 ≤ u && (u < 0xD800 || 0xE000 ≤ u) then some (u, 3) else none
        else none
      | _ => none
    else if b0 < 0xF5 then
      match rest with
      | b1 :: b2 :: b3 :: _ =>
        if utf8Cont b1 && utf8Cont b2 && utf8Cont b3 then
          let u := (b0 - 0xF0) * 262144 + (b1 - 0x80) * 4096 + (b2 - 0x80) * 64 + (b3 - 0x80)
          if 0x10000 ≤ u && u < 0x110000 then some (u, 4) else none
        else none
      | _ => none
    else none

/-- Fuelled worker for `fromUtf8`; the fuel is an upper bound on the number
of characters (each character consumes at least one byte, so the byte count
suffices and the `0`-fuel branch is unreachable from `fromUtf8`). -/
def fromUtf8Loop : Nat → List Nat → Option (List Char)
  | _, [] => some []
  | 0, _ :: _ => none
  | fuel + 1, b :: bs =>
    match utf8DecodeChar (b :: bs) with
    | none => none
    | some (u, w) =>
      match fromUtf8Loop fuel (bs.drop (w - 1)) with
      | none => none
      | some cs => some (Char.ofNat u :: cs)

/-- The characters of a byte string, when it is well-formed UTF-8
(`str::from_utf8` composed with `str::chars`); `none` on malformed input. -/
def fromUtf8 (bs : List Nat) : Option (List Char) :=
  fromUtf8Loop bs.length bs

/-! ## The serde data model: values (encoder side) and requested shapes
(decoder side) -/

/-- A value of the serde data model, as traversed by the `Serialize`
contract: one constructor per `Serializer` method family of `ser.rs`.
Strings are lists of characters, byte buffers lists of bytes; `f32`/`f64`
carry their IEEE-754 bit patterns (the serializer moves exactly those bits). -/
inductive Value where
  | vU8 (n : Nat)
  | vI8 (i : Int)
  | vU16 (n : Nat)
  | vI16 (i : Int)
  | vU32 (n : Nat)
  | vI32 (i : Int)
  | vU64 (n : Nat)
  | vI64 (i : Int)
  | vU128 (n : Nat)
  | vI128 (i : Int)
  | vF32 (bits : Nat)
  | vF64 (bits : Nat)
  | vBool (b : Bool)
  | vChar (c : Char)
  | vString (s : List Char)
  | vBytes (bs : List Nat)
  | vUnit
  | vUnitStruct
  | vNone
  | vSome (v : Value)
  | vNewtype (v : Value)
  | vSeq (vs : List Value)
  | vTuple (vs : List Value)
  | vStruct (vs : List Value)
  | vMap (entries : List (Value × Value))
  | vUnitVariant
  | vNewtypeVariant (v : Value)
  | vTupleVariant (vs : List Value)
  | vStructVariant (vs : List Value)

/-- A shape requested from the deserializer: one constructor per
`Deserializer` method of `de.rs` that a `Deserialize` implementation can
drive.  `str` is the `&str` target (whose visitor rejects owned strings),
`string` the `String` target, `byteBuf` the owned byte-buffer target.
`tuple` covers tuples, fixed-size arrays and structs, which all reach
`deserialize_tuple` with the statically known field count. -/
inductive Ty where
  | u8
  | i8
  | u16
  | i16
  | u32
  | i32
  | u64
  | i64
  | u128
  | i128
  | f32
  | f64
  | char
  | str
  | string
  | byteBuf
  | bool
  | option (t : Ty)
  | enum
  | map
  | any
  | identifier
  | ignoredAny
  | unit
  | newtype (t : Ty)
  | seq (t : Ty)
  | tuple (fields : List Ty)

/-! ## Encoder (`src/ser.rs`) -/

/-- Model of `std::io::Write::write_all` over an abstract sink: writing an
empty buffer performs no write call and always succeeds. -/
def write_all {W : Type} (write : W → List Nat → Except Error W) (w : W)
    (bs : List Nat) : Except Error W :=
  if bs.isEmpty then .ok w else write w bs

mutual
/-- The `ser::Serializer` implementation of `ser.rs`, generic over the sink
the way the Rust code is generic over `W: Write`: each numeric method emits
one fixed-width `write_all`; `bool` is one byte `0`/`1`; `char` and strings
emit their UTF-8 bytes; byte slices are written as-is; `()`, unit structs,
`None` and unit variants write nothing; `Some`, newtype structs and newtype
variants recurse into the payload; sequences, tuples, tuple structs, tuple
variants, structs, struct variants and maps serialize their parts
back-to-back with no framing. -/
def serValue {W : Type} (write : W → List Nat → Except Error W)
    (bo : ByteOrder) : Value → W → Except Error W
  | .vU8 n, w => write_all write w [n % 256]
  | .vI8 i, w => write_all write w [twosToNat 1 i]
  | .vU16 n, w => write_all write w (putNum bo 2 (n % 256 ^ 2))
  | .vI16 i, w => write_all write w (putNum bo 2 (twosToNat 2 i))
  | .vU32 n, w => write_all write w (putNum bo 4 (n % 256 ^ 4))
  | .vI32 i, w => write_all write w (putNum bo 4 (twosToNat 4 i))
  | .vU64 n, w => write_all write w (putNum bo 8 (n % 256 ^ 8))
  | .vI64 i, w => write_all write w (putNum bo 8 (twosToNat 8 i))
  | .vU128 n, w => write_all write w (putNum bo 16 (n % 256 ^ 16))
  | .vI128 i, w => write_all write w (putNum bo 16 (twosToNat 16 i))
  | .vF32 bits, w => write_all write w (putNum bo 4 (bits % 256 ^ 4))
  | .vF64 bits, w => write_all write w (putNum bo 8 (bits % 256 ^ 8))
  | .vBool b, w => write_all write w [if b then 1 else 0]
  | .vChar c, w => write_all write w (utf8EncodeChar c)
  | .vString s, w => write_all write w (s.flatMap utf8EncodeChar)
  | .vBytes bs, w => write_all write w bs
  | .vUnit, w => .ok w
  | .vUnitStruct, w => .ok w
  | .vNone, w => .ok w
  | .vSome v, w => serValue write bo v w
  | .vNewtype v, w => serValue write bo v w
  | .vSeq vs, w => serList write bo vs w
  | .vTuple vs, w => serList write bo vs w
  | .vStruct vs, w => serList write bo vs w
  | .vMap es, w => serPairs write bo es w
  | .vUnitVariant, w => .ok w
  | .vNewtypeVariant v, w => serValue write bo v w
  | .vTupleVariant vs, w => serList write bo vs w
  | .vStructVariant vs, w => serList write bo vs w

/-- Elements of a sequence/tuple/struct are serialized in order
(`serialize_element`/`serialize_field` followed by `end`, which writes
nothing); the first error aborts the traversal. -/
def serList {W : Type} (write : W → List Nat → Except Error W)
    (bo : ByteOrder) : List Value → W → Except Error W
  | [], w => .ok w
  | v :: vs, w =>
    match serValue write bo v w with
    | .ok w' => serList write bo vs w'
    | .error e => .error e

/-- Map entries: each key is serialized immediately followed by its value
(`serialize_key`, `serialize_value`). -/
def serPairs {W : Type} (write : W → List Nat → Except Error W)
    (bo : ByteOrder) : List (Value × Value) → W → Except Error W
  | [], w => .ok w
  | (k, v) :: es, w =>
    match serValue write bo k w with
    | .ok w' =>
      match serValue write bo v w' with
      | .ok w'' => serPairs write bo es w''
      | .error e => .error e
    | .error e => .error e
end

/-- Public entry point `to_writer`: serialize into a caller-provided sink. -/
def to_writer {W : Type} (write : W → List Nat → Except Error W)
    (bo : ByteOrder) (v : Value) (w : W) : Except Error W :=
  serValue write bo v w

/-- The sink used by `to_vec`: `Vec<u8>` as a `Write`r; appending to a
growable in-memory buffer never fails. -/
def vec_write (w bs : List Nat) : Except Error (List Nat) :=
  .ok (w ++ bs)

/-- Public entry point `to_vec`: serialize into a fresh `Vec<u8>`. -/
def to_vec (bo : ByteOrder) (v : Value) : Except Error (List Nat) :=
  to_writer vec_write bo v []

mutual
/-- The pure byte image of a value: what `to_vec` produces.  Used as the
specification against which the sink-threading serializer is proved. -/
def encValue (bo : ByteOrder) : Value → List Nat
  | .vU8 n => [n % 256]
  | .vI8 i => [twosToNat 1 i]
  | .vU16 n => putNum bo 2 (n % 256 ^ 2)
  | .vI16 i => putNum bo 2 (twosToNat 2 i)
  | .vU32 n => putNum bo 4 (n % 256 ^ 4)
  | .vI32 i => putNum bo 4 (twosToNat 4 i)
  | .vU64 n => putNum bo 8 (n % 256 ^ 8)
  | .vI64 i => putNum bo 8 (twosToNat 8 i)
  | .vU128 n => putNum bo 16 (n % 256 ^ 16)
  | .vI128 i => putNum bo 16 (twosToNat 16 i)
  | .vF32 bits => putNum bo 4 (bits % 256 ^ 4)
  | .vF64 bits => putNum bo 8 (bits % 256 ^ 8)
  | .vBool b => [if b then 1 else 0]
  | .vChar c => utf8EncodeChar c
  | .vString s => s.flatMap utf8EncodeChar
  | .vBytes bs => bs
  | .vUnit => []
  | .vUnitStruct => []
  | .vNone => []
  | .vSome v => encValue bo v
  | .vNewtype v => encValue bo v
  | .vSeq vs => encList bo vs
  | .vTuple vs => encList bo vs
  | .vStruct vs => encList bo vs
  | .vMap es => encPairs bo es
  | .vUnitVariant => []
  | .vNewtypeVariant v => encValue bo v
  | .vTupleVariant vs => encList bo vs
  | .vStructVariant vs => encList bo vs

/-- Byte image of a list of values, concatenated in order. -/
def encList (bo : ByteOrder) : List Value → List Nat
  | [] => []
  | v :: vs => encValue bo v ++ encList bo vs

/-- Byte image of map entries, each key followed by its value. -/
def encPairs (bo : ByteOrder) : List (Value × Value) → List Nat
  | [] => []
  | (k, v) :: es => encValue bo k ++ encValue bo v ++ encPairs bo es
end

/-! ## Decoder (`src/de.rs`) -/

/-- A deserialization step: the outcome together with the state of the byte
source afterwards (the Rust reader lives behind `&mut`, so its post-state is
observable even on failure). -/
abbrev DR (α : Type) := Except Failure α × List Nat

/-- `Read::read_exact` on a byte slice: if fewer than `n` bytes remain the
call fails with `ErrorKind::UnexpectedEof` and the slice is untouched,
otherwise the first `n` bytes are consumed and returned. -/
def read_exact (n : Nat) (r : List Nat) : DR (List Nat) :=
  if n ≤ r.length then (.ok (r.take n), r.drop n)
  else (.error (.err (.Io ("failed to fill whole buffer"))), r)

/-- A fixed-width numeric read (`ReadBytesExt::read_uXX::<BO>`):
`read_exact` of `w` bytes, interpreted under the byte order. -/
def read_num (bo : ByteOrder) (w : Nat) (r : List Nat) : DR Nat :=
  match read_exact w r with
  | (.ok bs, r') => (.ok (bytesToNum bo bs), r')
  | (.error e, r') => (.error e, r')

/-- `Deserializer::read_to_end`: drain the remaining bytes of the source. -/
def read_to_end (r : List Nat) : List Nat × List Nat :=
  (r, [])

/-- `Deserializer::read_char`: read one byte, look its width up in
`UTF8_CHAR_WIDTH`, read the remaining `width - 1` bytes, then validate with
`str::from_utf8` and take the first character.  A width of `1` returns the
byte itself as a character.  A width of `0` reaches the Rust expression
`self.reader.read_exact(&mut buf[1..width])`, i.e. the slice `buf[1..0]`,
which panics (`slice index starts at 1 but ends at 0`) instead of returning
an error. -/
def read_char (r : List Nat) : DR Char :=
  match read_exact 1 r with
  | (.error e, r') => (.error e, r')
  | (.ok bs, r') =>
    let b0 := bs.headD 0
    let width := UTF8_CHAR_WIDTH.getD b0 0
    if width = 1 then (.ok (Char.ofNat b0), r')
    else if width = 0 then
      (.error (.panicked ("slice index starts at 1 but ends at 0")), r')
    else
      match read_exact (width - 1) r' with
      | (.error e, r'') => (.error e, r'')
      | (.ok bs1, r'') =>
        match fromUtf8 (b0 :: bs1) with
        | none => (.error (.err .Encoding), r'')
        | some [] => (.error (.err (.Unknown ("UTF-8 bytes decoded as empty string"))), r'')
        | some (c :: _) => (.ok c, r'')

/-- The error produced by the `unsupported!` macro of `de.rs` for a given
method name. -/
def unsupported (method : String) : Failure :=
  .err (.Unsupported ("`" ++ method ++ "` is not supported"))

/-- The `SeqAccess` implementation for `&mut Deserializer`: before each
element the source is probed with `fill_buf().is_empty()`; if bytes remain
an element is decoded, otherwise iteration stops.  The caller's visitor
(e.g. `Vec`'s) collects elements until `None`.  The loop of the Rust code
has no other exit, so it diverges when an element consumes no input; the
fuel, one more than the bytes remaining, is exhausted exactly in that case
and `Failure.diverged` records the divergence. -/
def decodeSeqLoop (elem : List Nat → DR Value) : Nat → List Nat → DR (List Value)
  | 0, r => (.error .diverged, r)
  | fuel + 1, r =>
    if r.isEmpty then (.ok [], r)
    else
      match elem r with
      | (.ok v, r') =>
        match decodeSeqLoop elem fuel r' with
        | (.ok vs, r'') => (.ok (v :: vs), r'')
        | (.error e, r'') => (.error e, r'')
      | (.error e, r') => (.error e, r')

mutual
/-- The `de::Deserializer` implementation of `de.rs`, one case per method:
numeric shapes read their fixed width (8-bit reads ignore the byte order);
`char` goes through `read_char`; `str`/`string` drain the source and
validate UTF-8 — the `String` visitor accepts the owned string that
`visit_string` hands it, while the `&str` visitor rejects it with a serde
`invalid_type` custom error; `byteBuf` drains the source unvalidated;
`unit` consumes nothing; `newtype` recurses; unknown-length sequences loop
until the source is empty; tuples/arrays/structs decode exactly their
statically known fields; `bool`, `option`, `enum`, `map`, `any`,
`identifier` and `ignoredAny` fail with `Error::Unsupported` without
touching the source. -/
def deserialize : Ty → ByteOrder → List Nat → DR Value
  | .u8, _, r =>
    match read_exact 1 r with
    | (.ok bs, r') => (.ok (.vU8 (bs.headD 0)), r')
    | (.error e, r') => (.error e, r')
  | .i8, _, r =>
    match read_exact 1 r with
    | (.ok bs, r') => (.ok (.vI8 (natToTwos 1 (bs.headD 0))), r')
    | (.error e, r') => (.error e, r')
  | .u16, bo, r =>
    match read_num bo 2 r with
    | (.ok n, r') => (.ok (.vU16 n), r')
    | (.error e, r') => (.error e, r')
  | .i16, bo, r =>
    match read_num bo 2 r with
    | (.ok n, r') => (.ok (.vI16 (natToTwos 2 n)), r')
    | (.error e, r') => (.error e, r')
  | .u32, bo, r =>
    match read_num bo 4 r with
    | (.ok n, r') => (.ok (.vU32 n), r')
    | (.error e, r') => (.error e, r')
  | .i32, bo, r =>
    match read_num bo 4 r with
    | (.ok n, r') => (.ok (.vI32 (natToTwos 4 n)), r')
    | (.error e, r') => (.error e, r')
  | .u64, bo, r =>
    match read_num bo 8 r with
    | (.ok n, r') => (.ok (.vU64 n), r')
    | (.error e, r') => (.error e, r')
  | .i64, bo, r =>
    match read_num bo 8 r with
    | (.ok n, r') => (.ok (.vI64 (natToTwos 8 n)), r')
    | (.error e, r') => (.error e, r')
  | .u128, bo, r =>
    match read_num bo 16 r with
    | (.ok n, r') => (.ok (.vU128 n), r')
    | (.error e, r') => (.error e, r')
  | .i128, bo, r =>
    match read_num bo 16 r with
    | (.ok n, r') => (.ok (.vI128 (natToTwos 16 n)), r')
    | (.error e, r') => (.error e, r')
  | .f32, bo, r =>
    match read_num bo 4 r with
    | (.ok n, r') => (.ok (.vF32 n), r')
    | (.error e, r') => (.error e, r')
  | .f64, bo, r =>
    match read_num bo 8 r with
    | (.ok n, r') => (.ok (.vF64 n), r')
    | (.error e, r') => (.error e, r')
  | .char, _, r =>
    match read_char r with
    | (.ok c, r') => (.ok (.vChar c), r')
    | (.error e, r') => (.error e, r')
  | .str, _, r =>
    match fromUtf8 (read_to_end r).1 with
    | none => (.error (.err .Encoding), (read_to_end r).2)
    | some cs =>
      (.error (.err (.Unknown ("invalid type: string \x22" ++ String.mk cs ++
        "\x22, expected a borrowed string"))), (read_to_end r).2)
  | .string, _, r =>
    match fromUtf8 (read_to_end r).1 with
    | none => (.error (.err .Encoding), (read_to_end r).2)
    | some cs => (.ok (.vString cs), (read_to_end r).2)
  | .byteBuf, _, r => (.ok (.vBytes (read_to_end r).1), (read_to_end r).2)
  | .bool, _, r => (.error (unsupported ("deserialize_bool")), r)
  | .option _, _, r => (.error (unsupported ("deserialize_option")), r)
  | .enum, _, r => (.error (unsupported ("deserialize_enum")), r)
  | .map, _, r => (.error (unsupported ("deserialize_map")), r)
  | .any, _, r => (.error (unsupported ("deserialize_any")), r)
  | .identifier, _, r => (.error (unsupported ("deserialize_identifier")), r)
  | .ignoredAny, _, r => (.error (unsupported ("deserialize_ignored_any")), r)
  | .unit, _, r => (.ok .vUnit, r)
  | .newtype t, bo, r =>
    match deserialize t bo r with
    | (.ok v, r') => (.ok (.vNewtype v), r')
    | (.error e, r') => (.error e, r')
  | .seq t, bo, r =>
    match decodeSeqLoop (fun s => deserialize t bo s) (r.length + 1) r with
    | (.ok vs, r') => (.ok (.vSeq vs), r')
    | (.error e, r') => (.error e, r')
  | .tuple fs, bo, r =>
    match deserializeFields fs bo r with
    | (.ok vs, r') => (.ok (.vTuple vs), r')
    | (.error e, r') => (.error e, r')

/-- The `SeqAccess` implementation backing `deserialize_tuple` (`struct
Tuple`): a countdown of the statically known arity, decoding one element
per remaining field, never probing the source for emptiness.  The list of
field shapes stands in for the `count` field together with the field seeds
the derived `Deserialize` visitor supplies in declaration order. -/
def deserializeFields : List Ty → ByteOrder → List Nat → DR (List Value)
  | [], _, r => (.ok [], r)
  | t :: ts, bo, r =>
    match deserialize t bo r with
    | (.ok v, r') =>
      match deserializeFields ts bo r' with
      | (.ok vs, r'') => (.ok (v :: vs), r'')
      | (.error e, r'') => (.error e, r'')
    | (.error e, r') => (.error e, r')
end

/-- Public entry point `from_bytes`: decode a value of shape `ty` from a
byte slice under byte order `bo`. -/
def from_bytes (bo : ByteOrder) (ty : Ty) (storage : List Nat) : DR Value :=
  deserialize ty bo storage

/-! ## Lemmas: fixed-width numeric round-trips -/

theorem natToBytesLE_length (w n : Nat) : (natToBytesLE w n).length = w := by
  induction w generalizing n with
  | zero => rfl
  | succ w ih => simp [natToBytesLE, ih]

theorem leToNat_natToBytesLE (w n : Nat) (h : n < 256 ^ w) :
    leToNat (natToBytesLE w n) = n := by
  induction w generalizing n with
  | zero => simp [natToBytesLE, leToNat]; omega
  | succ w ih =>
    have hp : 256 ^ (w + 1) = 256 * 256 ^ w := by ring
    rw [hp] at h
    have hdiv : n / 256 < 256 ^ w := by omega
    simp [natToBytesLE, leToNat, ih _ hdiv]
    omega

theorem putNum_length (bo : ByteOrder) (w n : Nat) : (putNum bo w n).length = w := by
  cases bo <;> simp [putNum, natToBytesLE_length]

theorem bytesToNum_putNum (bo : ByteOrder) (w n : Nat) (h : n < 256 ^ w) :
    bytesToNum bo (putNum bo w n) = n := by
  cases bo <;>
    simp [putNum, bytesToNum, leToNat_natToBytesLE w n h]

theorem twosToNat_lt (w : Nat) (i : Int) : twosToNat w i < 256 ^ w := by
  have hm : (0 : Int) < ((256 ^ w : Nat) : Int) := by positivity
  have h1 := Int.emod_lt_of_pos i hm
  have h2 := Int.emod_nonneg i (by omega : ((256 ^ w : Nat) : Int) ≠ 0)
  unfold twosToNat
  omega

theorem natToTwos_twosToNat (w h : Nat) (hh : 256 ^ w = 2 * h) (i : Int)
    (h1 : -(h : Int) ≤ i) (h2 : i < (h : Int)) :
    natToTwos w (twosToNat w i) = i := by
  have hm : (0 : Int) < ((256 ^ w : Nat) : Int) := by positivity
  have hkey : i % ((256 ^ w : Nat) : Int) = i ∨
      i % ((256 ^ w : Nat) : Int) = i + ((256 ^ w : Nat) : Int) := by
    rcases le_or_lt 0 i with hpos | hneg
    · left
      exact Int.emod_eq_of_lt hpos (by omega)
    · right
      have hstep : (i + ((256 ^ w : Nat) : Int) * 1) % ((256 ^ w : Nat) : Int) =
          i % ((256 ^ w : Nat) : Int) :=
        Int.add_mul_emod_self_left i ((256 ^ w : Nat) : Int) 1
      rw [mul_one] at hstep
      rw [← hstep]
      exact Int.emod_eq_of_lt (by omega) (by omega)
  unfold natToTwos twosToNat
  rcases hkey with hk | hk <;> rw [hk] <;> split <;> omega

/-! ## Lemmas: UTF-8 round-trip -/

theorem utf8EncodeScalar_length_pos (u : Nat) : (utf8EncodeScalar u).length ≠ 0 := by
  unfold utf8EncodeScalar
  split
  · simp
  · split
    · simp
    · split <;> simp

/-- Decoding the first character of an encoded valid scalar followed by
anything recovers the scalar and its width. -/
theorem utf8DecodeChar_encode (u : Nat)
    (hv : u < 0xd800 ∨ 0xdfff < u ∧ u < 0x110000) (rest : List Nat) :
    utf8DecodeChar (utf8EncodeScalar u ++ rest) =
      some (u, (utf8EncodeScalar u).length) := by
  unfold utf8EncodeScalar
  by_cases h1 : u < 0x80
  · simp only [if_pos h1]
    simp [utf8DecodeChar, h1]
  · by_cases h2 : u < 0x800
    · simp only [if_neg h1, if_pos h2]
      simp only [utf8DecodeChar, List.cons_append, List.nil_append]
      rw [if_neg (by omega), if_neg (by omega), if_pos (by omega)]
      have hc : utf8Cont (0x80 + u % 64) = true := by
        unfold utf8Cont
        simp only [Bool.and_eq_true, decide_eq_true_eq]
        omega
      have hu : (0xC0 + u / 64 - 0xC0) * 64 + (0x80 + u % 64 - 0x80) = u := by omega
      simp [hc, hu]
      omega
    · by_cases h3 : u < 0x10000
      · simp only [if_neg h1, if_neg h2, if_pos h3]
        simp only [utf8DecodeChar, List.cons_append, List.nil_append]
        rw [if_neg (by omega), if_neg (by omega), if_neg (by omega), if_pos (by omega)]
        have hc1 : utf8Cont (0x80 + u / 64 % 64) = true := by
          unfold utf8Cont
          simp only [Bool.and_eq_true, decide_eq_true_eq]
          omega
        have hc2 : utf8Cont (0x80 + u % 64) = true := by
          unfold utf8Cont
          simp only [Bool.and_eq_true, decide_eq_true_eq]
          omega
        have hu : (0xE0 + u / 4096 - 0xE0) * 4096 + (0x80 + u / 64 % 64 - 0x80) * 64 +
            (0x80 + u % 64 - 0x80) = u := by omega
        have hcond : (decide (0x800 ≤ u) && (decide (u < 0xD800) || decide (0xE000 ≤ u)))
            = true := by
          simp only [Bool.and_eq_true, Bool.or_eq_true, decide_eq_true_eq]
          omega
        simp only [hc1, hc2, Bool.and_self, if_true, hu, hcond, if_pos, List.length_cons,
          List.length_nil]
      · simp only [if_neg h1, if_neg h2, if_neg h3]
        have hd : u / 262144 < 5 := by omega
        simp only [utf8DecodeChar, List.cons_append, List.nil_append]
        rw [if_neg (by omega), if_neg (by omega), if_neg (by omega), if_neg (by omega),
          if_pos (by omega)]
        have hc1 : utf8Cont (0x80 + u / 4096 % 64) = true := by
          unfold utf8Cont
          simp only [Bool.and_eq_true, decide_eq_true_eq]
          omega
        have hc2 : utf8Cont (0x80 + u / 64 % 64) = true := by
          unfold utf8Cont
          simp only [Bool.and_eq_true, decide_eq_true_eq]
          omega
        have hc3 : utf8Cont (0x80 + u % 64) = true := by
          unfold utf8Cont
          simp only [Bool.and_eq_true, decide_eq_true_eq]
          omega
        have hu : (0xF0 + u / 262144 - 0xF0) * 262144 + (0x80 + u / 4096 % 64 - 0x80) * 4096 +
            (0x80 + u / 64 % 64 - 0x80) * 64 + (0x80 + u % 64 - 0x80) = u := by omega
        have hcond : (decide (0x10000 ≤ u) && decide (u < 0x110000)) = true := by
          simp only [Bool.and_eq_true, decide_eq_true_eq]
          omega
        simp only [hc1, hc2, hc3, Bool.and_self, if_true, hu, hcond, if_pos, List.length_cons,
          List.length_nil]

set_option maxRecDepth 4000 in
theorem utf8_char_width_ascii : ∀ b < 0x80, UTF8_CHAR_WIDTH.getD b 0 = 1 := by decide

set_option maxRecDepth 4000 in
theorem utf8_char_width_two : ∀ b < 0xE0, 0xC2 ≤ b → UTF8_CHAR_WIDTH.getD b 0 = 2 := by decide

set_option maxRecDepth 4000 in
theorem utf8_char_width_three : ∀ b < 0xF0, 0xE0 ≤ b → UTF8_CHAR_WIDTH.getD b 0 = 3 := by
  decide

set_option maxRecDepth 4000 in
theorem utf8_char_width_four : ∀ b < 0xF5, 0xF0 ≤ b → UTF8_CHAR_WIDTH.getD b 0 = 4 := by
  decide

theorem read_exact_append (bs rest : List Nat) :
    read_exact bs.length (bs ++ rest) = (.ok bs, rest) := by
  simp [read_exact, List.take_left, List.drop_left]

/-- Decoding a whole encoded string recovers its characters; the fuel only
needs to cover the byte count. -/
theorem fromUtf8Loop_flatMap (s : List Char) (fuel : Nat)
    (hf : (s.flatMap utf8EncodeChar).length ≤ fuel) :
    fromUtf8Loop fuel (s.flatMap utf8EncodeChar) = some s := by
  induction s generalizing fuel with
  | nil =>
    simp only [List.flatMap_nil]
    cases fuel <;> rfl
  | cons c s ih =>
    have hv := c.valid
    have hne := utf8EncodeScalar_length_pos c.toNat
    rcases henc : utf8EncodeChar c with _ | ⟨b, tail⟩
    · exact absurd (by simpa [utf8EncodeChar, henc] using congrArg List.length henc) hne
    · simp only [List.flatMap_cons, henc, List.cons_append] at hf ⊢
      simp only [List.length_cons, List.length_append] at hf
      cases fuel with
      | zero => omega
      | succ f =>
        have hdec : utf8DecodeChar (b :: (tail ++ s.flatMap utf8EncodeChar)) =
            some (c.toNat, (utf8EncodeChar c).length) := by
          have hscalar : utf8EncodeScalar c.toNat = b :: tail := henc
          have h5 := utf8DecodeChar_encode c.toNat hv (s.flatMap utf8EncodeChar)
          rw [hscalar] at h5
          simpa [utf8EncodeChar, hscalar] using h5
        rw [fromUtf8Loop, hdec]
        have hlen : (utf8EncodeChar c).length = tail.length + 1 := by
          rw [henc]
          simp
        rw [hlen]
        simp only [Nat.add_sub_cancel]
        rw [List.drop_left]
        rw [ih f (by omega)]
        rw [Char.ofNat_toNat]

theorem fromUtf8_flatMap (s : List Char) :
    fromUtf8 (s.flatMap utf8EncodeChar) = some s :=
  fromUtf8Loop_flatMap s _ le_rfl

theorem fromUtf8_encodeChar (c : Char) : fromUtf8 (utf8EncodeChar c) = some [c] := by
  have := fromUtf8_flatMap [c]
  simpa using this

/-- Reading one character off an encoded character recovers it and consumes
exactly its bytes. -/
theorem read_char_encode (c : Char) (rest : List Nat) :
    read_char (utf8EncodeChar c ++ rest) = (.ok c, rest) := by
  have hv : c.toNat < 0xd800 ∨ 0xdfff < c.toNat ∧ c.toNat < 0x110000 := c.valid
  by_cases h1 : c.toNat < 0x80
  · have henc : utf8EncodeChar c = [c.toNat] := by
      simp [utf8EncodeChar, utf8EncodeScalar, h1]
    rw [henc]
    have h2 : read_exact 1 (c.toNat :: rest) = (.ok [c.toNat], rest) := by
      simpa using read_exact_append [c.toNat] rest
    unfold read_char
    rw [List.cons_append, List.nil_append, h2]
    simp only [List.headD_cons]
    rw [utf8_char_width_ascii c.toNat h1]
    simp [Char.ofNat_toNat]
  · by_cases h2 : c.toNat < 0x800
    · have henc : utf8EncodeChar c = [0xC0 + c.toNat / 64, 0x80 + c.toNat % 64] := by
        simp [utf8EncodeChar, utf8EncodeScalar, h1, h2]
      have hw : UTF8_CHAR_WIDTH.getD (0xC0 + c.toNat / 64) 0 = 2 :=
        utf8_char_width_two _ (by omega) (by omega)
      have hre : read_exact 1 ((0xC0 + c.toNat / 64) :: ((0x80 + c.toNat % 64) :: rest)) =
          (.ok [0xC0 + c.toNat / 64], (0x80 + c.toNat % 64) :: rest) := by
        simpa using read_exact_append [0xC0 + c.toNat / 64] ((0x80 + c.toNat % 64) :: rest)
      have hre2 : read_exact 1 ((0x80 + c.toNat % 64) :: rest) =
          (.ok [0x80 + c.toNat % 64], rest) := by
        simpa using read_exact_append [0x80 + c.toNat % 64] rest
      unfold read_char
      rw [henc, List.cons_append, List.cons_append, List.nil_append, hre]
      simp only [List.headD_cons]
      rw [hw]
      have hfu := fromUtf8_encodeChar c
      rw [henc] at hfu
      simp [hre2, hfu]
    · by_cases h3 : c.toNat < 0x10000
      · have henc : utf8EncodeChar c =
            [0xE0 + c.toNat / 4096, 0x80 + c.toNat / 64 % 64, 0x80 + c.toNat % 64] := by
          simp [utf8EncodeChar, utf8EncodeScalar, h1, h2, h3]
        have hw : UTF8_CHAR_WIDTH.getD (0xE0 + c.toNat / 4096) 0 = 3 :=
          utf8_char_width_three _ (by omega) (by omega)
        have hre : read_exact 1
            ((0xE0 + c.toNat / 4096) ::
              ((0x80 + c.toNat / 64 % 64) :: ((0x80 + c.toNat % 64) :: rest))) =
            (.ok [0xE0 + c.toNat / 4096],
              (0x80 + c.toNat / 64 % 64) :: ((0x80 + c.toNat % 64) :: rest)) := by
          simpa using read_exact_append [0xE0 + c.toNat / 4096]
            ((0x80 + c.toNat / 64 % 64) :: ((0x80 + c.toNat % 64) :: rest))
        have hre2 : read_exact 2
            ((0x80 + c.toNat / 64 % 64) :: ((0x80 + c.toNat % 64) :: rest)) =
            (.ok [0x80 + c.toNat / 64 % 64, 0x80 + c.toNat % 64], rest) := by
          simpa using read_exact_append [0x80 + c.toNat / 64 % 64, 0x80 + c.toNat % 64] rest
        unfold read_char
        rw [henc, List.cons_append, List.cons_append, List.cons_append, List.nil_append, hre]
        simp only [List.headD_cons]
        rw [hw]
        have hfu := fromUtf8_encodeChar c
        rw [henc] at hfu
        simp [hre2, hfu]
      · have henc : utf8EncodeChar c =
            [0xF0 + c.toNat / 262144, 0x80 + c.toNat / 4096 % 64,
             0x80 + c.toNat / 64 % 64, 0x80 + c.toNat % 64] := by
          simp [utf8EncodeChar, utf8EncodeScalar, h1, h2, h3]
        have hb : c.toNat < 0x110000 := by omega
        have hw : UTF8_CHAR_WIDTH.getD (0xF0 + c.toNat / 262144) 0 = 4 :=
          utf8_char_width_four _ (by omega) (by omega)
        have hre : read_exact 1
            ((0xF0 + c.toNat / 262144) ::
              ((0x80 + c.toNat / 4096 % 64) ::
                ((0x80 + c.toNat / 64 % 64) :: ((0x80 + c.toNat % 64) :: rest)))) =
            (.ok [0xF0 + c.toNat / 262144],
              (0x80 + c.toNat / 4096 % 64) ::
                ((0x80 + c.toNat / 64 % 64) :: ((0x80 + c.toNat % 64) :: rest))) := by
          simpa using read_exact_append [0xF0 + c.toNat / 262144]
            ((0x80 + c.toNat / 4096 % 64) ::
              ((0x80 + c.toNat / 64 % 64) :: ((0x80 + c.toNat % 64) :: rest)))
        have hre2 : read_exact 3
            ((0x80 + c.toNat / 4096 % 64) ::
              ((0x80 + c.toNat / 64 % 64) :: ((0x80 + c.toNat % 64) :: rest))) =
            (.ok [0x80 + c.toNat / 4096 % 64, 0x80 + c.toNat / 64 % 64,
              0x80 + c.toNat % 64], rest) := by
          simpa using read_exact_append
            [0x80 + c.toNat / 4096 % 64, 0x80 + c.toNat / 64 % 64, 0x80 + c.toNat % 64] rest
        unfold read_char
        rw [henc, List.cons_append, List.cons_append, List.cons_append, List.cons_append,
          List.nil_append, hre]
        simp only [List.headD_cons]
        rw [hw]
        have hfu := fromUtf8_encodeChar c
        rw [henc] at hfu
        simp [hre2, hfu]

/-- A fixed-width numeric read off its own encoding recovers the integer
and consumes exactly its bytes. -/
theorem read_num_putNum (bo : ByteOrder) (w n : Nat) (rest : List Nat)
    (h : n < 256 ^ w) :
    read_num bo w (putNum bo w n ++ rest) = (.ok n, rest) := by
  unfold read_num
  have h2 := read_exact_append (putNum bo w n) rest
  rw [putNum_length] at h2
  simp only [h2, bytesToNum_putNum bo w n h]

/-! ## Lemmas: the serializer over the `Vec<u8>` sink -/

theorem write_all_vec (w bs : List Nat) : write_all vec_write w bs = .ok (w ++ bs) := by
  unfold write_all vec_write
  split
  · simp_all [List.isEmpty_iff]
  · rfl

mutual
/-- Over the never-failing `Vec<u8>` sink the serializer always succeeds
and appends exactly the pure byte image of the value. -/
theorem serValue_vec (bo : ByteOrder) (v : Value) (w : List Nat) :
    serValue vec_write bo v w = .ok (w ++ encValue bo v) := by
  cases v with
  | vU8 n => rw [serValue, encValue, write_all_vec]
  | vI8 i => rw [serValue, encValue, write_all_vec]
  | vU16 n => rw [serValue, encValue, write_all_vec]
  | vI16 i => rw [serValue, encValue, write_all_vec]
  | vU32 n => rw [serValue, encValue, write_all_vec]
  | vI32 i => rw [serValue, encValue, write_all_vec]
  | vU64 n => rw [serValue, encValue, write_all_vec]
  | vI64 i => rw [serValue, encValue, write_all_vec]
  | vU128 n => rw [serValue, encValue, write_all_vec]
  | vI128 i => rw [serValue, encValue, write_all_vec]
  | vF32 bits => rw [serValue, encValue, write_all_vec]
  | vF64 bits => rw [serValue, encValue, write_all_vec]
  | vBool b => rw [serValue, encValue, write_all_vec]
  | vChar c => rw [serValue, encValue, write_all_vec]
  | vString s => rw [serValue, encValue, write_all_vec]
  | vBytes bs => rw [serValue, encValue, write_all_vec]
  | vUnit => rw [serValue, encValue, List.append_nil]
  | vUnitStruct => rw [serValue, encValue, List.append_nil]
  | vNone => rw [serValue, encValue, List.append_nil]
  | vSome v => rw [serValue, encValue, serValue_vec bo v w]
  | vNewtype v => rw [serValue, encValue, serValue_vec bo v w]
  | vSeq vs => rw [serValue, encValue, serList_vec bo vs w]
  | vTuple vs => rw [serValue, encValue, serList_vec bo vs w]
  | vStruct vs => rw [serValue, encValue, serList_vec bo vs w]
  | vMap es => rw [serValue, encValue, serPairs_vec bo es w]
  | vUnitVariant => rw [serValue, encValue, List.append_nil]
  | vNewtypeVariant v => rw [serValue, encValue, serValue_vec bo v w]
  | vTupleVariant vs => rw [serValue, encValue, serList_vec bo vs w]
  | vStructVariant vs => rw [serValue, encValue, serList_vec bo vs w]

/-- Serializing a list of elements over the `Vec<u8>` sink appends the
concatenation of their byte images. -/
theorem serList_vec (bo : ByteOrder) (vs : List Value) (w : List Nat) :
    serList vec_write bo vs w = .ok (w ++ encList bo vs) := by
  cases vs with
  | nil => rw [serList, encList, List.append_nil]
  | cons v vs =>
    simp only [serList, encList, serValue_vec bo v w,
      serList_vec bo vs (w ++ encValue bo v), List.append_assoc]

/-- Serializing map entries over the `Vec<u8>` sink appends each key image
followed by its value image. -/
theorem serPairs_vec (bo : ByteOrder) (es : List (Value × Value)) (w : List Nat) :
    serPairs vec_write bo es w = .ok (w ++ encPairs bo es) := by
  cases es with
  | nil => rw [serPairs, encPairs, List.append_nil]
  | cons e es =>
    obtain ⟨k, v⟩ := e
    simp only [serPairs, encPairs, serValue_vec bo k w,
      serValue_vec bo v (w ++ encValue bo k),
      serPairs_vec bo es (w ++ (encValue bo k ++ encValue bo v)), List.append_assoc]
end

/-- What `to_vec` computes: the pure byte image, always successfully. -/
theorem to_vec_eq (bo : ByteOrder) (v : Value) : to_vec bo v = .ok (encValue bo v) := by
  have h := serValue_vec bo v []
  simpa [to_vec, to_writer] using h

/-! ## The self-delimiting fragment of the data model

A shape/value pair is *self-delimiting* when decoding its encoding consumes
exactly its own bytes, wherever it sits in the stream: in-range machine
integers, characters, unit, and newtypes/tuples/arrays/structs built from
these.  Strings, byte buffers and unknown-length sequences are greedy (they
read to end of stream) and are therefore only round-trippable as the whole
stream; booleans, options, enums, maps and floats are excluded (the first
five are not decodable at all, float round-trips fail at `NaN` under Rust's
`==`). -/

mutual
/-- Self-delimiting shape/value pairs (see section header). -/
def SelfDelim : Ty → Value → Bool
  | .u8, .vU8 n => decide (n < 256)
  | .i8, .vI8 i => decide (-(128 : Int) ≤ i ∧ i < 128)
  | .u16, .vU16 n => decide (n < 256 ^ 2)
  | .i16, .vI16 i => decide (-(32768 : Int) ≤ i ∧ i < 32768)
  | .u32, .vU32 n => decide (n < 256 ^ 4)
  | .i32, .vI32 i => decide (-(2147483648 : Int) ≤ i ∧ i < 2147483648)
  | .u64, .vU64 n => decide (n < 256 ^ 8)
  | .i64, .vI64 i =>
    decide (-(9223372036854775808 : Int) ≤ i ∧ i < 9223372036854775808)
  | .u128, .vU128 n => decide (n < 256 ^ 16)
  | .i128, .vI128 i =>
    decide (-(170141183460469231731687303715884105728 : Int) ≤ i ∧
      i < 170141183460469231731687303715884105728)
  | .char, .vChar _ => true
  | .unit, .vUnit => true
  | .newtype t, .vNewtype v => SelfDelim t v
  | .tuple ts, .vTuple vs => SelfDelimList ts vs
  | _, _ => false

/-- Pointwise self-delimitation of the fields of a tuple/struct. -/
def SelfDelimList : List Ty → List Value → Bool
  | [], [] => true
  | t :: ts, v :: vs => SelfDelim t v && SelfDelimList ts vs
  | _, _ => false
end

mutual
/-- Decoding the encoding of a self-delimiting shape/value pair, embedded
before arbitrary following bytes, returns the value and consumes exactly
its encoding. -/
theorem deserialize_enc (ty : Ty) (v : Value) (h : SelfDelim ty v = true)
    (bo : ByteOrder) (rest : List Nat) :
    deserialize ty bo (encValue bo v ++ rest) = (.ok v, rest) := by
  cases ty <;> cases v <;> (try exact Bool.noConfusion h)
  case u8.vU8 n =>
    have hn : n < 256 := of_decide_eq_true h
    have hr : read_exact 1 (n :: rest) = (.ok [n], rest) := by
      simpa using read_exact_append [n] rest
    simp only [encValue, deserialize, List.cons_append, List.nil_append, hr, List.headD_cons,
      Nat.mod_eq_of_lt hn]
  case i8.vI8 i =>
    have hi : -(128 : Int) ≤ i ∧ i < 128 := of_decide_eq_true h
    have hr : read_exact 1 (twosToNat 1 i :: rest) = (.ok [twosToNat 1 i], rest) := by
      simpa using read_exact_append [twosToNat 1 i] rest
    simp only [encValue, deserialize, List.cons_append, List.nil_append, hr, List.headD_cons,
      natToTwos_twosToNat 1 128 (by norm_num) i hi.1 hi.2]
  case u16.vU16 n =>
    have hn : n < 256 ^ 2 := of_decide_eq_true h
    simp only [encValue, Nat.mod_eq_of_lt hn, deserialize, read_num_putNum bo 2 n rest hn]
  case i16.vI16 i =>
    have hi : -(32768 : Int) ≤ i ∧ i < 32768 := of_decide_eq_true h
    simp only [encValue, deserialize, read_num_putNum bo 2 (twosToNat 2 i) rest (twosToNat_lt 2 i),
      natToTwos_twosToNat 2 32768 (by norm_num) i hi.1 hi.2]
  case u32.vU32 n =>
    have hn : n < 256 ^ 4 := of_decide_eq_true h
    simp only [encValue, Nat.mod_eq_of_lt hn, deserialize, read_num_putNum bo 4 n rest hn]
  case i32.vI32 i =>
    have hi : -(2147483648 : Int) ≤ i ∧ i < 2147483648 := of_decide_eq_true h
    simp only [encValue, deserialize, read_num_putNum bo 4 (twosToNat 4 i) rest (twosToNat_lt 4 i),
      natToTwos_twosToNat 4 2147483648 (by norm_num) i hi.1 hi.2]
  case u64.vU64 n =>
    have hn : n < 256 ^ 8 := of_decide_eq_true h
    simp only [encValue, Nat.mod_eq_of_lt hn, deserialize, read_num_putNum bo 8 n rest hn]
  case i64.vI64 i =>
    have hi : -(9223372036854775808 : Int) ≤ i ∧ i < 9223372036854775808 :=
      of_decide_eq_true h
    simp only [encValue, deserialize,
      read_num_putNum bo 8 (twosToNat 8 i) rest (twosToNat_lt 8 i),
      natToTwos_twosToNat 8 9223372036854775808 (by norm_num) i hi.1 hi.2]
  case u128.vU128 n =>
    have hn : n < 256 ^ 16 := of_decide_eq_true h
    simp only [encValue, Nat.mod_eq_of_lt hn, deserialize, read_num_putNum bo 16 n rest hn]
  case i128.vI128 i =>
    have hi : -(170141183460469231731687303715884105728 : Int) ≤ i ∧
        i < 170141183460469231731687303715884105728 := of_decide_eq_true h
    simp only [encValue, deserialize,
      read_num_putNum bo 16 (twosToNat 16 i) rest (twosToNat_lt 16 i),
      natToTwos_twosToNat 16 170141183460469231731687303715884105728 (by norm_num) i
        hi.1 hi.2]
  case char.vChar c =>
    simp only [encValue, deserialize, read_char_encode c rest]
  case unit.vUnit =>
    simp only [encValue, deserialize, List.nil_append]
  case newtype.vNewtype t v =>
    have ih := deserialize_enc t v h bo rest
    simp only [encValue, deserialize, ih]
  case tuple.vTuple ts vs =>
    have ih := deserializeFields_enc ts vs h bo rest
    simp only [encValue, deserialize, ih]

/-- Field-list version of `deserialize_enc`. -/
theorem deserializeFields_enc (ts : List Ty) (vs : List Value)
    (h : SelfDelimList ts vs = true) (bo : ByteOrder) (rest : List Nat) :
    deserializeFields ts bo (encList bo vs ++ rest) = (.ok vs, rest) := by
  cases ts with
  | nil =>
    cases vs with
    | nil => simp [encList, deserializeFields]
    | cons v vs => exact Bool.noConfusion h
  | cons t ts =>
    cases vs with
    | nil => exact Bool.noConfusion h
    | cons v vs =>
      have h' : SelfDelim t v = true ∧ SelfDelimList ts vs = true := by
        simpa [SelfDelimList, Bool.and_eq_true] using h
      have ihA := deserialize_enc t v h'.1 bo (encList bo vs ++ rest)
      have ihB := deserializeFields_enc ts vs h'.2 bo rest
      simp only [encList, List.append_assoc, deserializeFields, ihA, ihB]
end

/-- Decoding an unknown-length sequence from the concatenated encodings of
self-delimiting elements with nonempty encodings consumes the whole stream
and recovers exactly the elements, for any fuel exceeding the byte count. -/
theorem decodeSeqLoop_enc (t : Ty) (bo : ByteOrder) (vs : List Value)
    (h : ∀ v ∈ vs, SelfDelim t v = true ∧ encValue bo v ≠ []) :
    ∀ fuel, (encList bo vs).length < fuel →
      decodeSeqLoop (fun s => deserialize t bo s) fuel (encList bo vs) = (.ok vs, []) := by
  induction vs with
  | nil =>
    intro fuel hf
    cases fuel with
    | zero => omega
    | succ f => simp [encList, decodeSeqLoop]
  | cons v vs ih =>
    intro fuel hf
    have hv := h v (List.mem_cons_self v vs)
    have hvs : ∀ v' ∈ vs, SelfDelim t v' = true ∧ encValue bo v' ≠ [] :=
      fun v' hm => h v' (List.mem_cons_of_mem v hm)
    rcases henc : encValue bo v with _ | ⟨b, bs⟩
    · exact absurd henc hv.2
    · have hlen : (encList bo vs).length < fuel - 1 := by
        rw [encList, henc] at hf
        simp only [List.length_append, List.length_cons] at hf
        omega
      cases fuel with
      | zero => omega
      | succ f =>
        have hd := deserialize_enc t v hv.1 bo (encList bo vs)
        rw [henc] at hd
        rw [encList, henc]
        rw [List.cons_append, decodeSeqLoop]
        simp only [List.isEmpty_cons, Bool.false_eq_true, if_false]
        rw [← List.cons_append, hd]
        simp only [ih hvs f (by simpa using hlen)]

/-- Round-trippable shape/value pairs: a self-delimiting pair anywhere, or
a greedy (read-to-end) shape — a string, a byte buffer, or an
unknown-length sequence of self-delimiting elements with nonempty
encodings — as the entire stream. -/
def Roundtrippable (bo : ByteOrder) (ty : Ty) (v : Value) : Bool :=
  SelfDelim ty v ||
    match ty, v with
    | .string, .vString _ => true
    | .byteBuf, .vBytes _ => true
    | .seq t, .vSeq vs => vs.all fun v' => SelfDelim t v' && !(encValue bo v').isEmpty
    | _, _ => false

/-! ## Claims -/

/-- C1 (counterexample): the unrestricted round-trip claim fails.  A struct
of two strings is encodable and decodable, but decoding reads the first
string to end of stream, so `decode(encode(("ab", "cd")))` yields
`("abcd", "")`, not the original value. -/
theorem roundtrip_counterexample :
    to_vec .BE (.vTuple [.vString ['a', 'b'], .vString ['c', 'd']])
      = .ok [0x61, 0x62, 0x63, 0x64] ∧
    from_bytes .BE (.tuple [.string, .string]) [0x61, 0x62, 0x63, 0x64]
      = (.ok (.vTuple [.vString ['a', 'b', 'c', 'd'], .vString []]), []) ∧
    Value.vTuple [.vString ['a', 'b', 'c', 'd'], .vString []]
      ≠ .vTuple [.vString ['a', 'b'], .vString ['c', 'd']] := by
  refine ⟨rfl, rfl, ?_⟩
  intro hcontra
  injection hcontra with h1
  injection h1 with h2 _
  injection h2 with h3
  injection h3 with _ h4
  injection h4 with _ h5
  injection h5

/-- C1 (amended): for every value of a self-delimiting shape (in-range
integers, characters, unit, and newtypes/tuples/arrays/structs thereof),
and for a top-level string, byte buffer, or unknown-length sequence of
self-delimiting elements with nonempty encodings, decoding the bytes
produced by encoding under either byte order returns the value (consuming
the whole stream). -/
theorem roundtrip (bo : ByteOrder) (ty : Ty) (v : Value) (bs : List Nat)
    (h : Roundtrippable bo ty v = true) (henc : to_vec bo v = .ok bs) :
    from_bytes bo ty bs = (.ok v, []) := by
  rw [to_vec_eq] at henc
  injection henc with hbs
  subst hbs
  unfold Roundtrippable at h
  rw [Bool.or_eq_true] at h
  rcases h with h | h
  · have hd := deserialize_enc ty v h bo []
    simpa [from_bytes] using hd
  · cases ty <;> cases v <;> (try exact Bool.noConfusion h)
    case string.vString s =>
      simp only [from_bytes, deserialize, encValue, read_to_end, fromUtf8_flatMap]
    case byteBuf.vBytes bs' =>
      simp only [from_bytes, deserialize, encValue, read_to_end]
    case seq.vSeq t vs =>
      have hall : ∀ v' ∈ vs, SelfDelim t v' = true ∧ encValue bo v' ≠ [] := by
        intro v' hm
        have hx := List.all_eq_true.mp h v' hm
        rw [Bool.and_eq_true] at hx
        refine ⟨hx.1, ?_⟩
        simpa [List.isEmpty_iff] using hx.2
      have hloop := decodeSeqLoop_enc t bo vs hall ((encList bo vs).length + 1)
        (by omega)
      simp only [from_bytes, deserialize, encValue, hloop]

/-- C1 (witness): the amended round-trip at the struct `{u32, u16}` with
value `(0x12345678, 0xABCD)`, big-endian. -/
theorem roundtrip_witness :
    Roundtrippable .BE (.tuple [.u32, .u16])
        (.vTuple [.vU32 0x12345678, .vU16 0xABCD]) = true ∧
    from_bytes .BE (.tuple [.u32, .u16]) [0x12, 0x34, 0x56, 0x78, 0xAB, 0xCD]
      = (.ok (.vTuple [.vU32 0x12345678, .vU16 0xABCD]), []) :=
  ⟨by decide,
   roundtrip .BE (.tuple [.u32, .u16]) (.vTuple [.vU32 0x12345678, .vU16 0xABCD])
     [0x12, 0x34, 0x56, 0x78, 0xAB, 0xCD] (by decide) rfl⟩

/-- C2 (code behavior at the failing input): for any first byte whose
`UTF8_CHAR_WIDTH` entry is `0` (continuation bytes `0x80..=0xBF` and
invalid lead bytes `0xC0`, `0xC1`, `0xF5..=0xFF`), `read_char` does not
return `Error::Encoding` as documented: it reaches the slice expression
`buf[1..0]`, which panics.  The byte is consumed before the panic. -/
theorem char_width_zero_panics (bo : ByteOrder) (b : Nat) (rest : List Nat)
    (h : UTF8_CHAR_WIDTH.getD b 0 = 0) :
    from_bytes bo .char (b :: rest)
      = (.error (.panicked ("slice index starts at 1 but ends at 0")), rest) := by
  have hr : read_exact 1 (b :: rest) = (.ok [b], rest) := by
    simpa using read_exact_append [b] rest
  unfold from_bytes deserialize read_char
  rw [hr]
  simp only [List.headD_cons, h]
  rfl

/-- C2 (witness): decoding a `char` from the single continuation byte
`0x80` panics under both byte orders. -/
theorem char_width_zero_panics_witness :
    UTF8_CHAR_WIDTH.getD 0x80 0 = 0 ∧
    from_bytes .BE .char [0x80]
      = (.error (.panicked ("slice index starts at 1 but ends at 0")), []) :=
  ⟨by decide, char_width_zero_panics .BE 0x80 [] (by decide)⟩

/-- C3: an unknown-length sequence decodes elements until the source is
exhausted — an empty source yields the empty sequence for every element
shape, and the six bytes `12 34 56 78 AB CD` decode as three `u16`s under
either byte order, with no count, separator or terminator read. -/
theorem seq_decodes_until_exhaustion :
    (∀ (t : Ty) (bo : ByteOrder), from_bytes bo (.seq t) [] = (.ok (.vSeq []), [])) ∧
    from_bytes .BE (.seq .u16) [0x12, 0x34, 0x56, 0x78, 0xAB, 0xCD]
      = (.ok (.vSeq [.vU16 0x1234, .vU16 0x5678, .vU16 0xABCD]), []) ∧
    from_bytes .LE (.seq .u16) [0x12, 0x34, 0x56, 0x78, 0xAB, 0xCD]
      = (.ok (.vSeq [.vU16 0x3412, .vU16 0x7856, .vU16 0xCDAB]), []) :=
  ⟨fun _ _ => rfl, rfl, rfl⟩

/-- C4: a tuple/array/struct of statically known arity decodes exactly its
fields in order and stops, leaving trailing bytes unconsumed: in general
for self-delimiting fields, and concretely for the struct
`{int1: u32, int2: u16}` of the specification. -/
theorem tuple_decodes_fixed_arity :
    (∀ (bo : ByteOrder) (ts : List Ty) (vs : List Value) (rest : List Nat),
      SelfDelimList ts vs = true →
        from_bytes bo (.tuple ts) (encList bo vs ++ rest) = (.ok (.vTuple vs), rest)) ∧
    from_bytes .BE (.tuple [.u32, .u16]) [0x12, 0x34, 0x56, 0x78, 0xAB, 0xCD]
      = (.ok (.vTuple [.vU32 0x12345678, .vU16 0xABCD]), []) ∧
    from_bytes .LE (.tuple [.u32, .u16]) [0x78, 0x56, 0x34, 0x12, 0xCD, 0xAB]
      = (.ok (.vTuple [.vU32 0x12345678, .vU16 0xABCD]), []) ∧
    from_bytes .BE (.tuple [.u32, .u16]) [0x12, 0x34, 0x56, 0x78, 0xAB, 0xCD, 0xFF]
      = (.ok (.vTuple [.vU32 0x12345678, .vU16 0xABCD]), [0xFF]) := by
  refine ⟨?_, rfl, rfl, rfl⟩
  intro bo ts vs rest h
  have hd := deserializeFields_enc ts vs h bo rest
  simp only [from_bytes, deserialize, hd]

/-- C4 (witness): the general fixed-arity statement at the struct
`{u32, u16}` with one trailing byte. -/
theorem tuple_decodes_fixed_arity_witness :
    SelfDelimList [.u32, .u16] [.vU32 0x12345678, .vU16 0xABCD] = true ∧
    from_bytes .BE (.tuple [.u32, .u16])
        (encList .BE [.vU32 0x12345678, .vU16 0xABCD] ++ [0xFF])
      = (.ok (.vTuple [.vU32 0x12345678, .vU16 0xABCD]), [0xFF]) :=
  ⟨by decide,
   tuple_decodes_fixed_arity.1 .BE [.u32, .u16] [.vU32 0x12345678, .vU16 0xABCD]
     [0xFF] (by decide)⟩

/-- C5: every unsupported shape — boolean, optional (any payload shape),
enumeration, map, untyped/any, identifier, ignored value — fails on every
input under either byte order with `Error::Unsupported` naming the
operation, and leaves the source untouched. -/
theorem unsupported_shapes_reject (bo : ByteOrder) (r : List Nat) :
    from_bytes bo .bool r
      = (.error (.err (.Unsupported ("`deserialize_bool` is not supported"))), r) ∧
    (∀ t : Ty, from_bytes bo (.option t) r
      = (.error (.err (.Unsupported ("`deserialize_option` is not supported"))), r)) ∧
    from_bytes bo .enum r
      = (.error (.err (.Unsupported ("`deserialize_enum` is not supported"))), r) ∧
    from_bytes bo .map r
      = (.error (.err (.Unsupported ("`deserialize_map` is not supported"))), r) ∧
    from_bytes bo .any r
      = (.error (.err (.Unsupported ("`deserialize_any` is not supported"))), r) ∧
    from_bytes bo .identifier r
      = (.error (.err (.Unsupported ("`deserialize_identifier` is not supported"))), r) ∧
    from_bytes bo .ignoredAny r
      = (.error (.err (.Unsupported ("`deserialize_ignored_any` is not supported"))), r) :=
  ⟨rfl, fun _ => rfl, rfl, rfl, rfl, rfl, rfl⟩

/-- C6: decoding a 3-element `u16` array from only 5 bytes fails with an
I/O-category error under either byte order (the third `read_exact` cannot
fill its 2-byte buffer). -/
theorem truncated_fixed_arity_io_error :
    from_bytes .BE (.tuple [.u16, .u16, .u16]) [0x12, 0x34, 0x56, 0x78, 0xAB]
      = (.error (.err (.Io ("failed to fill whole buffer"))), [0xAB]) ∧
    from_bytes .LE (.tuple [.u16, .u16, .u16]) [0x12, 0x34, 0x56, 0x78, 0xAB]
      = (.error (.err (.Io ("failed to fill whole buffer"))), [0xAB]) :=
  ⟨rfl, rfl⟩

/-- C7: enum encoding writes only the variant payload, never a
discriminant: a unit variant writes nothing, a newtype variant writes
exactly what its payload writes, and concretely the newtype variant of
`0x12345678` big-endian writes `12 34 56 78`. -/
theorem enum_encode_payload_only :
    (∀ bo : ByteOrder, to_vec bo .vUnitVariant = .ok []) ∧
    (∀ (bo : ByteOrder) (v : Value), to_vec bo (.vNewtypeVariant v) = to_vec bo v) ∧
    to_vec .BE (.vNewtypeVariant (.vU32 0x12345678)) = .ok [0x12, 0x34, 0x56, 0x78] :=
  ⟨fun _ => rfl, fun _ _ => rfl, rfl⟩

/-- C8: serialization into the growable in-memory buffer never fails: for
every value of the embedded data model (which raises no custom errors) and
either byte order, `to_vec` returns `Ok`. -/
theorem to_vec_never_fails (bo : ByteOrder) (v : Value) :
    ∃ bs, to_vec bo v = .ok bs :=
  ⟨encValue bo v, to_vec_eq bo v⟩

/-- C9: byte-order-insensitive shapes — 8-bit integers, characters,
strings and byte buffers — decode to the same outcome (value or error)
under the big-endian and little-endian deserializers, on every input. -/
theorem byte_order_insensitive_shapes (r : List Nat) :
    from_bytes .BE .u8 r = from_bytes .LE .u8 r ∧
    from_bytes .BE .i8 r = from_bytes .LE .i8 r ∧
    from_bytes .BE .char r = from_bytes .LE .char r ∧
    from_bytes .BE .string r = from_bytes .LE .string r ∧
    from_bytes .BE .byteBuf r = from_bytes .LE .byteBuf r :=
  ⟨rfl, rfl, rfl, rfl, rfl⟩

/-- C10: decoding into a borrowed `&str` fails on every input under either
byte order: the deserializer always hands the visitor an owned string, so
the `&str` visitor answers with a serde `invalid_type` custom error (and
invalid UTF-8 fails earlier with an encoding error). -/
theorem str_always_fails (bo : ByteOrder) (r : List Nat) :
    ∃ e : Error, (from_bytes bo .str r).1 = .error (.err e) := by
  unfold from_bytes deserialize
  rcases hf : fromUtf8 (read_to_end r).1 with _ | cs
  · exact ⟨.Encoding, by simp [hf]⟩
  · exact ⟨.Unknown ("invalid type: string \x22" ++ String.mk cs ++
      "\x22, expected a borrowed string"), by simp [hf]⟩

end SerdePod
